import Mathlib

/-!
Shallow embedding of the playback/analysis core of the tauriOpenGamesAutoPlay
repository (src/components/RightPanel.vue and collaborators), together with
proofs of the specification claims about it.

Conventions of the embedding:
* JS numbers holding MIDI data, transposes, octaves and counts are modelled as
  `Int` / `Nat`; scores of the transpose optimizer (integers plus an optional
  `0.5` penalty) are modelled as `Rat`.
* `Array.prototype.sort` is stable (ECMAScript 2019), so the in-place sort of
  the suggestion array is modelled by a stable insertion sort by score.
* The lookup helpers `getNoteName` / `groupForNote` are imported from
  `config/groups`, which is not part of the analysed sources; they are passed
  to the embedded functions as parameters (no claim depends on them).
* The window limits read from the settings store are passed as the
  parameters `limit_min` / `limit_max`.
-/

namespace AutoPlay

/-- A MIDI note event as produced by the external `parse_midi` backend
(fields `track`, `type`, `note`, `time`, `duration`, `end`, `velocity`);
`end` is renamed `endTime` (`end` is a Lean keyword). -/
structure NoteEvent where
  track : Int
  type : String
  note : Int
  time : Rat
  duration : Rat
  endTime : Rat
  velocity : Int
deriving DecidableEq

/-- The `TrackAnalysis` record of RightPanel.vue (nullable fields become
`Option`). -/
structure TrackAnalysis where
  max_note : Option Int
  min_note : Option Int
  max_note_name : String
  min_note_name : String
  max_note_group : String
  min_note_group : String
  upper_over_limit : Nat
  lower_over_limit : Nat
  is_max_over_limit : Bool
  is_min_over_limit : Bool
  suggested_max_transpose : Option Int
  suggested_max_octave : Option Int
  suggested_min_transpose : Option Int
  suggested_min_octave : Option Int
deriving DecidableEq

/-- The `Track` record of RightPanel.vue. -/
structure Track where
  id : Int
  name : String
  noteCount : Nat
  selected : Bool
  transpose : Int
  octave : Int
  analysis : TrackAnalysis
deriving DecidableEq

/-- One entry pushed by the loop of `optimizeTransposeSuggestion`:
`[final_transpose, final_octave, score]`. -/
abbrev Suggestion := Int × Int × Rat

/-- The candidate list built by the `for (let octave_shift = -2; octave_shift <= 2; ...)`
loop of `optimizeTransposeSuggestion`: for each shift the needed transpose is
`diff - octave_shift*12`, the resulting settings are
`final_transpose = current_transpose + total_transpose_needed` and
`final_octave = current_octave + octave_shift`, and the score is
`|final_transpose| + |final_octave|`, plus `0.5` when `5 ≤ |final_transpose| ≤ 7`. -/
def suggestionCandidates (diff current_transpose current_octave : Int) :
    List Suggestion :=
  ([-2, -1, 0, 1, 2] : List Int).map (fun octave_shift =>
    let total_transpose_needed := diff - octave_shift * 12
    let final_transpose := current_transpose + total_transpose_needed
    let final_octave := current_octave + octave_shift
    let base : Rat := ((|final_transpose| + |final_octave| : Int) : Rat)
    let score : Rat :=
      if 5 ≤ |final_transpose| ∧ |final_transpose| ≤ 7 then base + 1/2 else base
    (final_transpose, final_octave, score))

/-- Insert a suggestion into a list sorted by score, before the first entry of
greater-or-equal score (the stable position). -/
def insertByScore (c : Suggestion) : List Suggestion → List Suggestion
  | [] => [c]
  | b :: l => if c.2.2 ≤ b.2.2 then c :: b :: l else b :: insertByScore c l

/-- Stable sort by ascending score, modelling
`suggestions.sort((a, b) => a[2] - b[2])` (JS `Array.prototype.sort` is
stable, and any stable sort on the same key computes the same list). -/
def sortByScore : List Suggestion → List Suggestion
  | [] => []
  | x :: xs => insertByScore x (sortByScore xs)

/-- The function `optimizeTransposeSuggestion` of RightPanel.vue: build the candidates,
sort ascending by score, and return `[transpose, octave]` of the first entry
(`null` when the list is empty). -/
def optimizeTransposeSuggestion (diff current_transpose current_octave : Int) :
    Option (Int × Int) :=
  let suggestions :=
    sortByScore (suggestionCandidates diff current_transpose current_octave)
  match suggestions with
  | [] => none
  | c :: _ => some (c.1, c.2.1)

/-- The first entry of a list attaining the minimal score (ties kept in favour
of the earlier entry), as an executable function. -/
def firstMinByScore : List Suggestion → Option Suggestion
  | [] => none
  | x :: xs =>
    match firstMinByScore xs with
    | none => some x
    | some m => if x.2.2 ≤ m.2.2 then some x else some m

/-- Predicate: `c` is the first minimal-score entry of `l`: everything strictly before it
scores strictly more, everything after scores at least as much. -/
def IsFirstMin (l : List Suggestion) (c : Suggestion) : Prop :=
  ∃ l₁ l₂, l = l₁ ++ c :: l₂ ∧ (∀ d ∈ l₁, c.2.2 < d.2.2) ∧ ∀ d ∈ l₂, c.2.2 ≤ d.2.2

theorem firstMinByScore_cons (x : Suggestion) (xs : List Suggestion) :
    firstMinByScore (x :: xs) =
      match firstMinByScore xs with
      | none => some x
      | some m => if x.2.2 ≤ m.2.2 then some x else some m := rfl

theorem firstMinByScore_cons_isSome (x : Suggestion) (xs : List Suggestion) :
    ∃ c, firstMinByScore (x :: xs) = some c := by
  rw [firstMinByScore_cons]
  cases firstMinByScore xs with
  | none => exact ⟨x, rfl⟩
  | some m =>
    by_cases hle : x.2.2 ≤ m.2.2
    · exact ⟨x, by simp [hle]⟩
    · exact ⟨m, by simp [hle]⟩

theorem firstMinByScore_eq_none {l : List Suggestion}
    (h : firstMinByScore l = none) : l = [] := by
  cases l with
  | nil => rfl
  | cons x xs =>
    obtain ⟨c, hc⟩ := firstMinByScore_cons_isSome x xs
    simp [hc] at h

theorem head_insertByScore (c : Suggestion) (l : List Suggestion) :
    (insertByScore c l).head? =
      some (match l.head? with
            | none => c
            | some b => if c.2.2 ≤ b.2.2 then c else b) := by
  cases l with
  | nil => rfl
  | cons b l =>
    by_cases h : c.2.2 ≤ b.2.2 <;> simp [insertByScore, h]

theorem head_sortByScore : ∀ l : List Suggestion,
    (sortByScore l).head? = firstMinByScore l
  | [] => rfl
  | x :: xs => by
    rw [sortByScore, head_insertByScore, firstMinByScore_cons,
      ← head_sortByScore xs]
    cases hx : (sortByScore xs).head? with
    | none => rfl
    | some m => by_cases hle : x.2.2 ≤ m.2.2 <;> simp [hle]

theorem mem_insertByScore {a c : Suggestion} {l : List Suggestion} :
    a ∈ insertByScore c l ↔ a = c ∨ a ∈ l := by
  induction l with
  | nil => simp [insertByScore]
  | cons b l ih =>
    by_cases h : c.2.2 ≤ b.2.2
    · simp only [insertByScore, if_pos h]
      simp
    · simp only [insertByScore, if_neg h]
      simp [ih]
      tauto

theorem mem_sortByScore {a : Suggestion} {l : List Suggestion} :
    a ∈ sortByScore l ↔ a ∈ l := by
  induction l with
  | nil => simp [sortByScore]
  | cons x xs ih =>
    simp [sortByScore, mem_insertByScore, ih]

theorem firstMinByScore_mem : ∀ {l : List Suggestion} {c : Suggestion},
    firstMinByScore l = some c → c ∈ l := by
  intro l
  induction l with
  | nil => intro c h; exact absurd h (by simp [firstMinByScore])
  | cons x xs ih =>
    intro c h
    rw [firstMinByScore_cons] at h
    cases hm : firstMinByScore xs with
    | none =>
      simp only [hm] at h
      obtain rfl : x = c := by injection h
      exact List.mem_cons_self _ _
    | some m =>
      simp only [hm] at h
      by_cases hle : x.2.2 ≤ m.2.2
      · rw [if_pos hle] at h
        obtain rfl : x = c := by injection h
        exact List.mem_cons_self _ _
      · rw [if_neg hle] at h
        obtain rfl : m = c := by injection h
        exact List.mem_cons_of_mem _ (ih hm)

theorem firstMinByScore_le : ∀ {l : List Suggestion} {c : Suggestion},
    firstMinByScore l = some c → ∀ d ∈ l, c.2.2 ≤ d.2.2 := by
  intro l
  induction l with
  | nil => intro c h; exact absurd h (by simp [firstMinByScore])
  | cons x xs ih =>
    intro c h d hd
    rw [firstMinByScore_cons] at h
    cases hm : firstMinByScore xs with
    | none =>
      simp only [hm] at h
      obtain rfl : x = c := by injection h
      have : xs = [] := firstMinByScore_eq_none hm
      subst this
      rcases List.mem_cons.mp hd with rfl | hd
      · exact le_refl _
      · exact absurd hd (by simp)
    | some m =>
      simp only [hm] at h
      by_cases hle : x.2.2 ≤ m.2.2
      · rw [if_pos hle] at h
        obtain rfl : x = c := by injection h
        rcases List.mem_cons.mp hd with rfl | hd
        · exact le_refl _
        · exact le_trans hle (ih hm d hd)
      · rw [if_neg hle] at h
        obtain rfl : m = c := by injection h
        rcases List.mem_cons.mp hd with rfl | hd
        · exact le_of_lt (lt_of_not_le hle)
        · exact ih hm d hd

theorem firstMinByScore_isFirstMin : ∀ {l : List Suggestion} {c : Suggestion},
    firstMinByScore l = some c → IsFirstMin l c := by
  intro l
  induction l with
  | nil => intro c h; exact absurd h (by simp [firstMinByScore])
  | cons x xs ih =>
    intro c h
    rw [firstMinByScore_cons] at h
    cases hm : firstMinByScore xs with
    | none =>
      simp only [hm] at h
      obtain rfl : x = c := by injection h
      have : xs = [] := firstMinByScore_eq_none hm
      subst this
      exact ⟨[], [], rfl, by simp, by simp⟩
    | some m =>
      simp only [hm] at h
      by_cases hle : x.2.2 ≤ m.2.2
      · rw [if_pos hle] at h
        obtain rfl : x = c := by injection h
        refine ⟨[], xs, rfl, by simp, ?_⟩
        intro d hd
        exact le_trans hle (firstMinByScore_le hm d hd)
      · rw [if_neg hle] at h
        obtain rfl : m = c := by injection h
        obtain ⟨l₁, l₂, hsplit, h₁, h₂⟩ := ih hm
        refine ⟨x :: l₁, l₂, by rw [hsplit]; rfl, ?_, h₂⟩
        intro d hd
        rcases List.mem_cons.mp hd with rfl | hd
        · exact lt_of_not_le hle
        · exact h₁ d hd

/-- The sort of a non-empty candidate list is non-empty, and its head is the
first minimal-score candidate. -/
theorem sortByScore_cons (x : Suggestion) (xs : List Suggestion) :
    ∃ c tl, sortByScore (x :: xs) = c :: tl ∧ c ∈ x :: xs ∧
      (∀ d ∈ x :: xs, c.2.2 ≤ d.2.2) ∧ IsFirstMin (x :: xs) c := by
  obtain ⟨c, hc⟩ := firstMinByScore_cons_isSome x xs
  have hhead : (sortByScore (x :: xs)).head? = some c := by
    rw [head_sortByScore, hc]
  cases hs : sortByScore (x :: xs) with
  | nil => rw [hs] at hhead; exact absurd hhead (by simp)
  | cons c' tl =>
    rw [hs] at hhead
    obtain rfl : c' = c := by injection hhead
    exact ⟨c', tl, rfl, firstMinByScore_mem hc, firstMinByScore_le hc,
      firstMinByScore_isFirstMin hc⟩

theorem optimizeTransposeSuggestion_spec (d t o : Int) :
    ∃ c : Suggestion, IsFirstMin (suggestionCandidates d t o) c ∧
      optimizeTransposeSuggestion d t o = some (c.1, c.2.1) := by
  cases h : suggestionCandidates d t o with
  | nil => simp [suggestionCandidates] at h
  | cons x xs =>
    obtain ⟨c, tl, hs, _, _, hfm⟩ := sortByScore_cons x xs
    refine ⟨c, h ▸ hfm, ?_⟩
    simp only [optimizeTransposeSuggestion]
    rw [h, hs]

theorem mem_suggestionCandidates {d t o : Int} {c : Suggestion}
    (h : c ∈ suggestionCandidates d t o) :
    ∃ s : Int, s ∈ ([-2, -1, 0, 1, 2] : List Int) ∧
      c.1 = t + (d - s * 12) ∧ c.2.1 = o + s := by
  simp only [suggestionCandidates, List.mem_map] at h
  obtain ⟨s, hs, rfl⟩ := h
  exact ⟨s, hs, rfl, rfl⟩

/-- Any result of the optimizer preserves the combined shift plus the
requested correction, and moves the octave by at most 2. -/
theorem optimize_eq_some (d t o : Int) :
    ∃ ft fo : Int, optimizeTransposeSuggestion d t o = some (ft, fo) ∧
      ft + fo * 12 = (t + o * 12) + d ∧ |fo - o| ≤ 2 := by
  obtain ⟨c, hfm, heq⟩ := optimizeTransposeSuggestion_spec d t o
  have hmem : c ∈ suggestionCandidates d t o := by
    obtain ⟨l₁, l₂, hsplit, -, -⟩ := hfm
    rw [hsplit]
    exact List.mem_append_right _ (List.mem_cons_self _ _)
  obtain ⟨s, hs, h1, h2⟩ := mem_suggestionCandidates hmem
  refine ⟨c.1, c.2.1, heq, ?_, ?_⟩
  · rw [h1, h2]; ring
  · rw [h2]
    have h3 : o + s - o = s := by ring
    rw [h3]
    fin_cases hs <;> decide

/-- C1: for every integer inputs, `optimizeTransposeSuggestion` enumerates
octave shifts `s = -2..2`, forms `finalTranspose = currentTranspose + diff - 12*s`
and `finalOctave = currentOctave + s`, scores each as
`|finalTranspose| + |finalOctave|` plus `0.5` exactly when
`5 ≤ |finalTranspose| ≤ 7` (this is the `suggestionCandidates` list), and
returns the transpose/octave of the lowest-score candidate with exact ties
broken by enumeration order (`IsFirstMin`); in particular
`optimizeTransposeSuggestion 8 0 0 = some (-4, 1)`. -/
theorem claim_C1 :
    (∀ diff currentTranspose currentOctave : Int,
      ∃ c : Suggestion,
        IsFirstMin (suggestionCandidates diff currentTranspose currentOctave) c ∧
        optimizeTransposeSuggestion diff currentTranspose currentOctave =
          some (c.1, c.2.1)) ∧
    optimizeTransposeSuggestion 8 0 0 = some (-4, 1) := by
  refine ⟨optimizeTransposeSuggestion_spec, ?_⟩
  decide

/-- C1 witness: the theorem applied at a concrete input. -/
theorem claim_C1_witness :
    optimizeTransposeSuggestion 8 0 0 = some (-4, 1) := claim_C1.2

/-- C7: the optimizer never returns `null` (the candidate set is never
empty for the fixed `-2..2` range), and the returned octave differs from
`currentOctave` by at most 2 in absolute value. -/
theorem claim_C7 (diff currentTranspose currentOctave : Int) :
    ∃ ft fo : Int,
      optimizeTransposeSuggestion diff currentTranspose currentOctave =
        some (ft, fo) ∧ |fo - currentOctave| ≤ 2 := by
  obtain ⟨ft, fo, h, -, hb⟩ := optimize_eq_some diff currentTranspose currentOctave
  exact ⟨ft, fo, h, hb⟩

/-- C7 witness: the theorem applied at a concrete input (together with a
direct evaluation of the optimizer there). -/
theorem claim_C7_witness :
    (∃ ft fo : Int, optimizeTransposeSuggestion 8 0 0 = some (ft, fo) ∧
      |fo - 0| ≤ 2) ∧
    optimizeTransposeSuggestion 0 0 0 = some (0, 0) :=
  ⟨claim_C7 8 0 0, by decide⟩

/-- The non-empty branch of `reanalyzeTrack`: the track's original note_on
events are `e0 :: rest`; apply the combined shift
`adjustment = transpose + octave * 12`, recompute the extrema
(`Math.max(...adjustedNotes)` / `Math.min(...adjustedNotes)` over the
non-empty spread, modelled as folds), the over-limit counts and flags, the
suggestions (only when the corresponding flag is set), and write them into
`track.analysis` (spread update keeping the other fields). -/
def reanalyzeCore (getNoteName groupForNote : Int → String)
    (limit_min limit_max : Int) (track : Track)
    (e0 : NoteEvent) (rest : List NoteEvent) : Track :=
  let adjustment := track.transpose + track.octave * 12
  let a0 := e0.note + adjustment
  let adjustedRest := rest.map (fun e => e.note + adjustment)
  let adjustedNotes := a0 :: adjustedRest
  let max_note := adjustedRest.foldl max a0
  let min_note := adjustedRest.foldl min a0
  let upper_over_limit :=
    (adjustedNotes.filter (fun n => decide (n > limit_max))).length
  let lower_over_limit :=
    (adjustedNotes.filter (fun n => decide (n < limit_min))).length
  let is_max_over_limit :=
    decide (max_note > limit_max) || decide (max_note < limit_min)
  let is_min_over_limit :=
    decide (min_note < limit_min) || decide (min_note > limit_max)
  let suggested_max : Option (Int × Int) :=
    if is_max_over_limit then
      optimizeTransposeSuggestion (limit_max - max_note)
        track.transpose track.octave
    else none
  let suggested_min : Option (Int × Int) :=
    if is_min_over_limit then
      optimizeTransposeSuggestion (limit_min - min_note)
        track.transpose track.octave
    else none
  { track with
    analysis :=
      { track.analysis with
        max_note := some max_note
        min_note := some min_note
        max_note_name := getNoteName max_note
        min_note_name := getNoteName min_note
        max_note_group := groupForNote max_note
        min_note_group := groupForNote min_note
        upper_over_limit := upper_over_limit
        lower_over_limit := lower_over_limit
        is_max_over_limit := is_max_over_limit
        is_min_over_limit := is_min_over_limit
        suggested_max_transpose := suggested_max.map Prod.fst
        suggested_max_octave := suggested_max.map Prod.snd
        suggested_min_transpose := suggested_min.map Prod.fst
        suggested_min_octave := suggested_min.map Prod.snd } }

/-- The function `reanalyzeTrack` of RightPanel.vue: take the track's original `note_on`
events from the cache; if there are none, return early (no-op); otherwise
recompute the analysis (`reanalyzeCore`). -/
def reanalyzeTrack (getNoteName groupForNote : Int → String)
    (limit_min limit_max : Int)
    (originalMidiEvents : List NoteEvent) (track : Track) : Track :=
  match originalMidiEvents.filter
      (fun e => e.track == track.id && e.type == "note_on") with
  | [] => track
  | e0 :: rest =>
    reanalyzeCore getNoteName groupForNote limit_min limit_max track e0 rest

/-- The `'max' | 'min'` argument of `applySuggestion`. -/
inductive SuggestionKind
  | maxNote
  | minNote
deriving DecidableEq

/-- The function `applySuggestion` of RightPanel.vue: when both suggested fields for the
requested extreme are non-null, write them into the track's
transpose/octave and re-analyze; otherwise do nothing. -/
def applySuggestion (getNoteName groupForNote : Int → String)
    (limit_min limit_max : Int) (originalMidiEvents : List NoteEvent)
    (track : Track) (kind : SuggestionKind) : Track :=
  let analysis := track.analysis
  match kind with
  | .maxNote =>
    match analysis.suggested_max_transpose, analysis.suggested_max_octave with
    | some t, some o =>
      reanalyzeTrack getNoteName groupForNote limit_min limit_max
        originalMidiEvents { track with transpose := t, octave := o }
    | _, _ => track
  | .minNote =>
    match analysis.suggested_min_transpose, analysis.suggested_min_octave with
    | some t, some o =>
      reanalyzeTrack getNoteName groupForNote limit_min limit_max
        originalMidiEvents { track with transpose := t, octave := o }
    | _, _ => track

/-- The maximum of the shifted notes as computed by `reanalyzeCore`. -/
def adjustedMax (track : Track) (e0 : NoteEvent) (rest : List NoteEvent) : Int :=
  (rest.map (fun e => e.note + (track.transpose + track.octave * 12))).foldl max
    (e0.note + (track.transpose + track.octave * 12))

/-- The minimum of the shifted notes as computed by `reanalyzeCore`. -/
def adjustedMin (track : Track) (e0 : NoteEvent) (rest : List NoteEvent) : Int :=
  (rest.map (fun e => e.note + (track.transpose + track.octave * 12))).foldl min
    (e0.note + (track.transpose + track.octave * 12))

theorem foldl_max_init : ∀ (xs : List Int) (x : Int), x ≤ xs.foldl max x
  | [], _ => le_refl _
  | y :: ys, x => le_trans (le_max_left x y) (foldl_max_init ys (max x y))

theorem foldl_max_le_of_mem : ∀ (xs : List Int) (x n : Int),
    n ∈ xs → n ≤ xs.foldl max x := by
  intro xs
  induction xs with
  | nil => intro x n hn; exact absurd hn (by simp)
  | cons y ys ih =>
    intro x n hn
    rcases List.mem_cons.mp hn with rfl | hn
    · exact le_trans (le_max_right x n) (foldl_max_init ys (max x n))
    · exact ih (max x y) n hn

theorem foldl_max_mem : ∀ (xs : List Int) (x : Int),
    xs.foldl max x = x ∨ xs.foldl max x ∈ xs := by
  intro xs
  induction xs with
  | nil => intro x; left; rfl
  | cons y ys ih =>
    intro x
    rw [List.foldl_cons]
    rcases ih (max x y) with hm | hm
    · rcases le_total y x with hxy | hxy
      · left; rw [hm, max_eq_left hxy]
      · right; rw [hm, max_eq_right hxy]; exact List.mem_cons_self _ _
    · right; exact List.mem_cons_of_mem _ hm

theorem foldl_min_init : ∀ (xs : List Int) (x : Int), xs.foldl min x ≤ x
  | [], _ => le_refl _
  | y :: ys, x => le_trans (foldl_min_init ys (min x y)) (min_le_left x y)

theorem foldl_min_le_of_mem : ∀ (xs : List Int) (x n : Int),
    n ∈ xs → xs.foldl min x ≤ n := by
  intro xs
  induction xs with
  | nil => intro x n hn; exact absurd hn (by simp)
  | cons y ys ih =>
    intro x n hn
    rcases List.mem_cons.mp hn with rfl | hn
    · exact le_trans (foldl_min_init ys (min x n)) (min_le_right x n)
    · exact ih (min x y) n hn

theorem foldl_min_mem : ∀ (xs : List Int) (x : Int),
    xs.foldl min x = x ∨ xs.foldl min x ∈ xs := by
  intro xs
  induction xs with
  | nil => intro x; left; rfl
  | cons y ys ih =>
    intro x
    rw [List.foldl_cons]
    rcases ih (min x y) with hm | hm
    · rcases le_total x y with hxy | hxy
      · left; rw [hm, min_eq_left hxy]
      · right; rw [hm, min_eq_right hxy]; exact List.mem_cons_self _ _
    · right; exact List.mem_cons_of_mem _ hm

theorem foldl_max_map_add (c : Int) : ∀ (xs : List NoteEvent) (x : Int),
    (xs.map (fun e => e.note + c)).foldl max (x + c) =
      (xs.map (fun e => e.note)).foldl max x + c := by
  intro xs
  induction xs with
  | nil => intro x; rfl
  | cons y ys ih =>
    intro x
    simp only [List.map_cons, List.foldl_cons]
    rw [max_add_add_right, ih]

theorem foldl_min_map_add (c : Int) : ∀ (xs : List NoteEvent) (x : Int),
    (xs.map (fun e => e.note + c)).foldl min (x + c) =
      (xs.map (fun e => e.note)).foldl min x + c := by
  intro xs
  induction xs with
  | nil => intro x; rfl
  | cons y ys ih =>
    intro x
    simp only [List.map_cons, List.foldl_cons]
    rw [min_add_add_right, ih]

/-- The shifted maximum is the raw maximum plus the combined shift. -/
theorem adjustedMax_eq (track : Track) (e0 : NoteEvent) (rest : List NoteEvent) :
    adjustedMax track e0 rest =
      (rest.map (fun e => e.note)).foldl max e0.note +
        (track.transpose + track.octave * 12) :=
  foldl_max_map_add _ rest e0.note

/-- The shifted minimum is the raw minimum plus the combined shift. -/
theorem adjustedMin_eq (track : Track) (e0 : NoteEvent) (rest : List NoteEvent) :
    adjustedMin track e0 rest =
      (rest.map (fun e => e.note)).foldl min e0.note +
        (track.transpose + track.octave * 12) :=
  foldl_min_map_add _ rest e0.note

theorem reanalyzeCore_id (gn gf : Int → String) (lmin lmax : Int)
    (tk : Track) (e0 : NoteEvent) (rest : List NoteEvent) :
    (reanalyzeCore gn gf lmin lmax tk e0 rest).id = tk.id := rfl

theorem reanalyzeCore_transpose (gn gf : Int → String) (lmin lmax : Int)
    (tk : Track) (e0 : NoteEvent) (rest : List NoteEvent) :
    (reanalyzeCore gn gf lmin lmax tk e0 rest).transpose = tk.transpose := rfl

theorem reanalyzeCore_octave (gn gf : Int → String) (lmin lmax : Int)
    (tk : Track) (e0 : NoteEvent) (rest : List NoteEvent) :
    (reanalyzeCore gn gf lmin lmax tk e0 rest).octave = tk.octave := rfl

theorem reanalyzeCore_max_note (gn gf : Int → String) (lmin lmax : Int)
    (tk : Track) (e0 : NoteEvent) (rest : List NoteEvent) :
    (reanalyzeCore gn gf lmin lmax tk e0 rest).analysis.max_note =
      some (adjustedMax tk e0 rest) := rfl

theorem reanalyzeCore_min_note (gn gf : Int → String) (lmin lmax : Int)
    (tk : Track) (e0 : NoteEvent) (rest : List NoteEvent) :
    (reanalyzeCore gn gf lmin lmax tk e0 rest).analysis.min_note =
      some (adjustedMin tk e0 rest) := rfl

theorem reanalyzeCore_is_max_over_limit (gn gf : Int → String) (lmin lmax : Int)
    (tk : Track) (e0 : NoteEvent) (rest : List NoteEvent) :
    (reanalyzeCore gn gf lmin lmax tk e0 rest).analysis.is_max_over_limit =
      (decide (adjustedMax tk e0 rest > lmax) ||
        decide (adjustedMax tk e0 rest < lmin)) := rfl

theorem reanalyzeCore_is_min_over_limit (gn gf : Int → String) (lmin lmax : Int)
    (tk : Track) (e0 : NoteEvent) (rest : List NoteEvent) :
    (reanalyzeCore gn gf lmin lmax tk e0 rest).analysis.is_min_over_limit =
      (decide (adjustedMin tk e0 rest < lmin) ||
        decide (adjustedMin tk e0 rest > lmax)) := rfl

theorem reanalyzeCore_suggested_max_transpose (gn gf : Int → String)
    (lmin lmax : Int) (tk : Track) (e0 : NoteEvent) (rest : List NoteEvent) :
    (reanalyzeCore gn gf lmin lmax tk e0 rest).analysis.suggested_max_transpose =
      (if (decide (adjustedMax tk e0 rest > lmax) ||
            decide (adjustedMax tk e0 rest < lmin)) then
          optimizeTransposeSuggestion (lmax - adjustedMax tk e0 rest)
            tk.transpose tk.octave
        else none).map Prod.fst := rfl

theorem reanalyzeCore_suggested_max_octave (gn gf : Int → String)
    (lmin lmax : Int) (tk : Track) (e0 : NoteEvent) (rest : List NoteEvent) :
    (reanalyzeCore gn gf lmin lmax tk e0 rest).analysis.suggested_max_octave =
      (if (decide (adjustedMax tk e0 rest > lmax) ||
            decide (adjustedMax tk e0 rest < lmin)) then
          optimizeTransposeSuggestion (lmax - adjustedMax tk e0 rest)
            tk.transpose tk.octave
        else none).map Prod.snd := rfl

theorem reanalyzeCore_suggested_min_transpose (gn gf : Int → String)
    (lmin lmax : Int) (tk : Track) (e0 : NoteEvent) (rest : List NoteEvent) :
    (reanalyzeCore gn gf lmin lmax tk e0 rest).analysis.suggested_min_transpose =
      (if (decide (adjustedMin tk e0 rest < lmin) ||
            decide (adjustedMin tk e0 rest > lmax)) then
          optimizeTransposeSuggestion (lmin - adjustedMin tk e0 rest)
            tk.transpose tk.octave
        else none).map Prod.fst := rfl

theorem reanalyzeCore_suggested_min_octave (gn gf : Int → String)
    (lmin lmax : Int) (tk : Track) (e0 : NoteEvent) (rest : List NoteEvent) :
    (reanalyzeCore gn gf lmin lmax tk e0 rest).analysis.suggested_min_octave =
      (if (decide (adjustedMin tk e0 rest < lmin) ||
            decide (adjustedMin tk e0 rest > lmax)) then
          optimizeTransposeSuggestion (lmin - adjustedMin tk e0 rest)
            tk.transpose tk.octave
        else none).map Prod.snd := rfl

theorem reanalyzeTrack_eq_core (gn gf : Int → String) (lmin lmax : Int)
    (evs : List NoteEvent) (tr : Track) (e0 : NoteEvent) (rest : List NoteEvent)
    (h : evs.filter (fun e => e.track == tr.id && e.type == "note_on") =
      e0 :: rest) :
    reanalyzeTrack gn gf lmin lmax evs tr =
      reanalyzeCore gn gf lmin lmax tr e0 rest := by
  simp only [reanalyzeTrack, h]

theorem reanalyzeTrack_eq_self (gn gf : Int → String) (lmin lmax : Int)
    (evs : List NoteEvent) (tr : Track)
    (h : evs.filter (fun e => e.track == tr.id && e.type == "note_on") = []) :
    reanalyzeTrack gn gf lmin lmax evs tr = tr := by
  simp only [reanalyzeTrack, h]

/-- Fact: `adjustedMax` is the greatest element of the shifted note list. -/
theorem shifted_max_spec (tk : Track) (e0 : NoteEvent) (rest : List NoteEvent) :
    adjustedMax tk e0 rest ∈
      (e0 :: rest).map (fun e => e.note + (tk.transpose + tk.octave * 12)) ∧
    ∀ n ∈ (e0 :: rest).map (fun e => e.note + (tk.transpose + tk.octave * 12)),
      n ≤ adjustedMax tk e0 rest := by
  constructor
  · rw [List.map_cons]
    unfold adjustedMax
    rcases foldl_max_mem
        (rest.map (fun e => e.note + (tk.transpose + tk.octave * 12)))
        (e0.note + (tk.transpose + tk.octave * 12)) with hm | hm
    · rw [hm]; exact List.mem_cons_self _ _
    · exact List.mem_cons_of_mem _ hm
  · intro n hn
    rw [List.map_cons] at hn
    unfold adjustedMax
    rcases List.mem_cons.mp hn with rfl | hn
    · exact foldl_max_init _ _
    · exact foldl_max_le_of_mem _ _ _ hn

/-- Fact: `adjustedMin` is the least element of the shifted note list. -/
theorem shifted_min_spec (tk : Track) (e0 : NoteEvent) (rest : List NoteEvent) :
    adjustedMin tk e0 rest ∈
      (e0 :: rest).map (fun e => e.note + (tk.transpose + tk.octave * 12)) ∧
    ∀ n ∈ (e0 :: rest).map (fun e => e.note + (tk.transpose + tk.octave * 12)),
      adjustedMin tk e0 rest ≤ n := by
  constructor
  · rw [List.map_cons]
    unfold adjustedMin
    rcases foldl_min_mem
        (rest.map (fun e => e.note + (tk.transpose + tk.octave * 12)))
        (e0.note + (tk.transpose + tk.octave * 12)) with hm | hm
    · rw [hm]; exact List.mem_cons_self _ _
    · exact List.mem_cons_of_mem _ hm
  · intro n hn
    rw [List.map_cons] at hn
    unfold adjustedMin
    rcases List.mem_cons.mp hn with rfl | hn
    · exact foldl_min_init _ _
    · exact foldl_min_le_of_mem _ _ _ hn

/-- C2: for a track with a non-empty set of original note_on events, combined
shift `Δ = transpose + octave*12` and window `[lo, hi]`, the analysis computed
by `reanalyzeTrack` has `is_max_over_limit = true` iff the maximum `M` of the
shifted notes satisfies `M > hi ∨ M < lo`, and `is_min_over_limit = true` iff
the minimum `m` of the shifted notes satisfies `m < lo ∨ m > hi`. -/
theorem claim_C2 (gn gf : Int → String) (lo hi : Int)
    (evs : List NoteEvent) (tr : Track) (e0 : NoteEvent) (rest : List NoteEvent)
    (h : evs.filter (fun e => e.track == tr.id && e.type == "note_on") =
      e0 :: rest) :
    ∃ M m : Int,
      M ∈ (e0 :: rest).map (fun e => e.note + (tr.transpose + tr.octave * 12)) ∧
      (∀ n ∈ (e0 :: rest).map
          (fun e => e.note + (tr.transpose + tr.octave * 12)), n ≤ M) ∧
      m ∈ (e0 :: rest).map (fun e => e.note + (tr.transpose + tr.octave * 12)) ∧
      (∀ n ∈ (e0 :: rest).map
          (fun e => e.note + (tr.transpose + tr.octave * 12)), m ≤ n) ∧
      ((reanalyzeTrack gn gf lo hi evs tr).analysis.is_max_over_limit = true ↔
        (M > hi ∨ M < lo)) ∧
      ((reanalyzeTrack gn gf lo hi evs tr).analysis.is_min_over_limit = true ↔
        (m < lo ∨ m > hi)) := by
  have hre := reanalyzeTrack_eq_core gn gf lo hi evs tr e0 rest h
  obtain ⟨hMmem, hMub⟩ := shifted_max_spec tr e0 rest
  obtain ⟨hmmem, hmlb⟩ := shifted_min_spec tr e0 rest
  refine ⟨adjustedMax tr e0 rest, adjustedMin tr e0 rest,
    hMmem, hMub, hmmem, hmlb, ?_, ?_⟩
  · rw [hre, reanalyzeCore_is_max_over_limit]
    simp
  · rw [hre, reanalyzeCore_is_min_over_limit]
    simp

/-- C9: for a track with no cached original note_on events, `reanalyzeTrack`
is a no-op: the track (in particular its analysis, transpose and octave) is
returned unchanged. -/
theorem claim_C9 (gn gf : Int → String) (lo hi : Int)
    (evs : List NoteEvent) (tr : Track)
    (h : evs.filter (fun e => e.track == tr.id && e.type == "note_on") = []) :
    reanalyzeTrack gn gf lo hi evs tr = tr ∧
    (reanalyzeTrack gn gf lo hi evs tr).analysis = tr.analysis ∧
    (reanalyzeTrack gn gf lo hi evs tr).transpose = tr.transpose ∧
    (reanalyzeTrack gn gf lo hi evs tr).octave = tr.octave := by
  have he : reanalyzeTrack gn gf lo hi evs tr = tr :=
    reanalyzeTrack_eq_self gn gf lo hi evs tr h
  exact ⟨he, by rw [he], by rw [he], by rw [he]⟩

theorem suggestion_forces_flag (b : Bool) (oo : Option (Int × Int))
    (f : Int × Int → Int) :
    ((if b then oo else none).map f ≠ none) → b = true := by
  intro hne
  by_contra hb
  rw [Bool.not_eq_true] at hb
  rw [hb] at hne
  simp at hne

/-- C8: after `reanalyzeTrack` on a track with at least one original note_on
event, the stored analysis has `min_note ≤ max_note` (both present), and each
suggested transpose/octave field is non-null only if the corresponding
over-limit flag is set. -/
theorem claim_C8 (gn gf : Int → String) (lo hi : Int)
    (evs : List NoteEvent) (tr : Track) (e0 : NoteEvent) (rest : List NoteEvent)
    (h : evs.filter (fun e => e.track == tr.id && e.type == "note_on") =
      e0 :: rest) :
    ∃ mn mx : Int,
      (reanalyzeTrack gn gf lo hi evs tr).analysis.min_note = some mn ∧
      (reanalyzeTrack gn gf lo hi evs tr).analysis.max_note = some mx ∧
      mn ≤ mx ∧
      ((reanalyzeTrack gn gf lo hi evs tr).analysis.suggested_max_transpose ≠
          none →
        (reanalyzeTrack gn gf lo hi evs tr).analysis.is_max_over_limit = true) ∧
      ((reanalyzeTrack gn gf lo hi evs tr).analysis.suggested_max_octave ≠
          none →
        (reanalyzeTrack gn gf lo hi evs tr).analysis.is_max_over_limit = true) ∧
      ((reanalyzeTrack gn gf lo hi evs tr).analysis.suggested_min_transpose ≠
          none →
        (reanalyzeTrack gn gf lo hi evs tr).analysis.is_min_over_limit = true) ∧
      ((reanalyzeTrack gn gf lo hi evs tr).analysis.suggested_min_octave ≠
          none →
        (reanalyzeTrack gn gf lo hi evs tr).analysis.is_min_over_limit = true) := by
  have hre := reanalyzeTrack_eq_core gn gf lo hi evs tr e0 rest h
  refine ⟨adjustedMin tr e0 rest, adjustedMax tr e0 rest, ?_, ?_, ?_, ?_, ?_, ?_, ?_⟩
  · rw [hre, reanalyzeCore_min_note]
  · rw [hre, reanalyzeCore_max_note]
  · exact le_trans
      (foldl_min_init (rest.map (fun e => e.note + (tr.transpose + tr.octave * 12)))
        (e0.note + (tr.transpose + tr.octave * 12)))
      (foldl_max_init (rest.map (fun e => e.note + (tr.transpose + tr.octave * 12)))
        (e0.note + (tr.transpose + tr.octave * 12)))
  · rw [hre, reanalyzeCore_suggested_max_transpose,
      reanalyzeCore_is_max_over_limit]
    exact suggestion_forces_flag _ _ _
  · rw [hre, reanalyzeCore_suggested_max_octave,
      reanalyzeCore_is_max_over_limit]
    exact suggestion_forces_flag _ _ _
  · rw [hre, reanalyzeCore_suggested_min_transpose,
      reanalyzeCore_is_min_over_limit]
    exact suggestion_forces_flag _ _ _
  · rw [hre, reanalyzeCore_suggested_min_octave,
      reanalyzeCore_is_min_over_limit]
    exact suggestion_forces_flag _ _ _

/-- Trivial name/group lookup used by the concrete witnesses. -/
def noName : Int → String := fun _ => ""

/-- Sample parsed note_on events (track 0, notes 40/44/47), as in the spec's
scenario. -/
def sampleEv40 : NoteEvent := ⟨0, "note_on", 40, 0, 1, 1, 64⟩

def sampleEv44 : NoteEvent := ⟨0, "note_on", 44, 0, 1, 1, 64⟩

def sampleEv47 : NoteEvent := ⟨0, "note_on", 47, 0, 1, 1, 64⟩

/-- An analysis record before re-analysis (all fields empty/false). -/
def sampleAnalysis : TrackAnalysis :=
  ⟨none, none, "", "", "", "", 0, 0, false, false, none, none, none, none⟩

/-- A selected track (id 0) at transpose 0 / octave 0. -/
def sampleTrack : Track := ⟨0, "Track 1", 3, true, 0, 0, sampleAnalysis⟩

/-- A track (id 1) that owns none of the sample events. -/
def sampleTrackB : Track := ⟨1, "Track 2", 0, true, 0, 0, sampleAnalysis⟩

/-- C2 witness: the theorem applied at the concrete scenario (track 0,
notes 40/44/47, window [48, 83]). -/
theorem claim_C2_witness :
    ([sampleEv40, sampleEv44, sampleEv47].filter
        (fun e => e.track == sampleTrack.id && e.type == "note_on") =
      sampleEv40 :: [sampleEv44, sampleEv47]) ∧
    (∃ M m : Int,
      M ∈ (sampleEv40 :: [sampleEv44, sampleEv47]).map
          (fun e => e.note + (sampleTrack.transpose + sampleTrack.octave * 12)) ∧
      (∀ n ∈ (sampleEv40 :: [sampleEv44, sampleEv47]).map
          (fun e => e.note + (sampleTrack.transpose + sampleTrack.octave * 12)),
        n ≤ M) ∧
      m ∈ (sampleEv40 :: [sampleEv44, sampleEv47]).map
          (fun e => e.note + (sampleTrack.transpose + sampleTrack.octave * 12)) ∧
      (∀ n ∈ (sampleEv40 :: [sampleEv44, sampleEv47]).map
          (fun e => e.note + (sampleTrack.transpose + sampleTrack.octave * 12)),
        m ≤ n) ∧
      ((reanalyzeTrack noName noName 48 83
          [sampleEv40, sampleEv44, sampleEv47] sampleTrack).analysis.is_max_over_limit
            = true ↔ (M > 83 ∨ M < 48)) ∧
      ((reanalyzeTrack noName noName 48 83
          [sampleEv40, sampleEv44, sampleEv47] sampleTrack).analysis.is_min_over_limit
            = true ↔ (m < 48 ∨ m > 83))) :=
  ⟨by decide, claim_C2 noName noName 48 83 [sampleEv40, sampleEv44, sampleEv47]
    sampleTrack sampleEv40 [sampleEv44, sampleEv47] (by decide)⟩

/-- C8 witness: the theorem applied at the concrete scenario. -/
theorem claim_C8_witness :
    ([sampleEv40, sampleEv44, sampleEv47].filter
        (fun e => e.track == sampleTrack.id && e.type == "note_on") =
      sampleEv40 :: [sampleEv44, sampleEv47]) ∧
    (∃ mn mx : Int,
      (reanalyzeTrack noName noName 48 83
        [sampleEv40, sampleEv44, sampleEv47] sampleTrack).analysis.min_note =
          some mn ∧
      (reanalyzeTrack noName noName 48 83
        [sampleEv40, sampleEv44, sampleEv47] sampleTrack).analysis.max_note =
          some mx ∧
      mn ≤ mx ∧
      ((reanalyzeTrack noName noName 48 83
          [sampleEv40, sampleEv44, sampleEv47] sampleTrack).analysis.suggested_max_transpose
            ≠ none →
        (reanalyzeTrack noName noName 48 83
          [sampleEv40, sampleEv44, sampleEv47] sampleTrack).analysis.is_max_over_limit
            = true) ∧
      ((reanalyzeTrack noName noName 48 83
          [sampleEv40, sampleEv44, sampleEv47] sampleTrack).analysis.suggested_max_octave
            ≠ none →
        (reanalyzeTrack noName noName 48 83
          [sampleEv40, sampleEv44, sampleEv47] sampleTrack).analysis.is_max_over_limit
            = true) ∧
      ((reanalyzeTrack noName noName 48 83
          [sampleEv40, sampleEv44, sampleEv47] sampleTrack).analysis.suggested_min_transpose
            ≠ none →
        (reanalyzeTrack noName noName 48 83
          [sampleEv40, sampleEv44, sampleEv47] sampleTrack).analysis.is_min_over_limit
            = true) ∧
      ((reanalyzeTrack noName noName 48 83
          [sampleEv40, sampleEv44, sampleEv47] sampleTrack).analysis.suggested_min_octave
            ≠ none →
        (reanalyzeTrack noName noName 48 83
          [sampleEv40, sampleEv44, sampleEv47] sampleTrack).analysis.is_min_over_limit
            = true)) :=
  ⟨by decide, claim_C8 noName noName 48 83 [sampleEv40, sampleEv44, sampleEv47]
    sampleTrack sampleEv40 [sampleEv44, sampleEv47] (by decide)⟩

/-- C9 witness: the theorem applied to a track (id 1) owning none of the
events. -/
theorem claim_C9_witness :
    ([sampleEv40, sampleEv44, sampleEv47].filter
        (fun e => e.track == sampleTrackB.id && e.type == "note_on") = []) ∧
    (reanalyzeTrack noName noName 48 83
        [sampleEv40, sampleEv44, sampleEv47] sampleTrackB = sampleTrackB ∧
      (reanalyzeTrack noName noName 48 83
        [sampleEv40, sampleEv44, sampleEv47] sampleTrackB).analysis =
          sampleTrackB.analysis ∧
      (reanalyzeTrack noName noName 48 83
        [sampleEv40, sampleEv44, sampleEv47] sampleTrackB).transpose =
          sampleTrackB.transpose ∧
      (reanalyzeTrack noName noName 48 83
        [sampleEv40, sampleEv44, sampleEv47] sampleTrackB).octave =
          sampleTrackB.octave) :=
  ⟨by decide, claim_C9 noName noName 48 83
    [sampleEv40, sampleEv44, sampleEv47] sampleTrackB (by decide)⟩

/-- C6: for a track with at least one original note_on event and a window
`lo ≤ hi`, if re-analysis sets `is_max_over_limit` (resp. `is_min_over_limit`)
then applying the corresponding suggestion (`applySuggestion`, which writes
the suggested transpose/octave and re-analyzes) yields an analysis with that
flag cleared.  (A correcting combination always exists in the search range:
the chosen candidate moves the extreme exactly onto the window boundary.) -/
theorem claim_C6 (gn gf : Int → String) (lo hi : Int)
    (evs : List NoteEvent) (tr : Track) (e0 : NoteEvent) (rest : List NoteEvent)
    (hwin : lo ≤ hi)
    (h : evs.filter (fun e => e.track == tr.id && e.type == "note_on") =
      e0 :: rest) :
    ((reanalyzeTrack gn gf lo hi evs tr).analysis.is_max_over_limit = true →
      (applySuggestion gn gf lo hi evs (reanalyzeTrack gn gf lo hi evs tr)
        SuggestionKind.maxNote).analysis.is_max_over_limit = false) ∧
    ((reanalyzeTrack gn gf lo hi evs tr).analysis.is_min_over_limit = true →
      (applySuggestion gn gf lo hi evs (reanalyzeTrack gn gf lo hi evs tr)
        SuggestionKind.minNote).analysis.is_min_over_limit = false) := by
  have hre := reanalyzeTrack_eq_core gn gf lo hi evs tr e0 rest h
  constructor
  · intro hflag
    rw [hre, reanalyzeCore_is_max_over_limit] at hflag
    obtain ⟨ft, fo, hopt, hsum, -⟩ :=
      optimize_eq_some (hi - adjustedMax tr e0 rest) tr.transpose tr.octave
    have hs1 : (reanalyzeTrack gn gf lo hi evs tr).analysis.suggested_max_transpose =
        some ft := by
      rw [hre, reanalyzeCore_suggested_max_transpose]
      simp [hflag, hopt]
    have hs2 : (reanalyzeTrack gn gf lo hi evs tr).analysis.suggested_max_octave =
        some fo := by
      rw [hre, reanalyzeCore_suggested_max_octave]
      simp [hflag, hopt]
    have happ : applySuggestion gn gf lo hi evs
        (reanalyzeTrack gn gf lo hi evs tr) SuggestionKind.maxNote =
        reanalyzeTrack gn gf lo hi evs
          { reanalyzeTrack gn gf lo hi evs tr with transpose := ft, octave := fo } := by
      simp only [applySuggestion, hs1, hs2]
    have hfilt2 : evs.filter (fun e =>
        e.track == ({ reanalyzeTrack gn gf lo hi evs tr with
          transpose := ft, octave := fo } : Track).id && e.type == "note_on") =
        e0 :: rest := by
      have hid : ({ reanalyzeTrack gn gf lo hi evs tr with
          transpose := ft, octave := fo } : Track).id = tr.id := by
        rw [hre]
        rfl
      rw [hid]
      exact h
    have hre2 := reanalyzeTrack_eq_core gn gf lo hi evs
      { reanalyzeTrack gn gf lo hi evs tr with transpose := ft, octave := fo }
      e0 rest hfilt2
    rw [happ, hre2, reanalyzeCore_is_max_over_limit]
    have hM := adjustedMax_eq tr e0 rest
    have hM2 : adjustedMax
        { reanalyzeTrack gn gf lo hi evs tr with transpose := ft, octave := fo }
        e0 rest =
        (rest.map (fun e => e.note)).foldl max e0.note + (ft + fo * 12) :=
      adjustedMax_eq _ e0 rest
    have hhi : adjustedMax
        { reanalyzeTrack gn gf lo hi evs tr with transpose := ft, octave := fo }
        e0 rest = hi := by omega
    rw [hhi, decide_eq_false (lt_irrefl hi), decide_eq_false (not_lt.mpr hwin)]
    rfl
  · intro hflag
    rw [hre, reanalyzeCore_is_min_over_limit] at hflag
    obtain ⟨ft, fo, hopt, hsum, -⟩ :=
      optimize_eq_some (lo - adjustedMin tr e0 rest) tr.transpose tr.octave
    have hs1 : (reanalyzeTrack gn gf lo hi evs tr).analysis.suggested_min_transpose =
        some ft := by
      rw [hre, reanalyzeCore_suggested_min_transpose]
      simp [hflag, hopt]
    have hs2 : (reanalyzeTrack gn gf lo hi evs tr).analysis.suggested_min_octave =
        some fo := by
      rw [hre, reanalyzeCore_suggested_min_octave]
      simp [hflag, hopt]
    have happ : applySuggestion gn gf lo hi evs
        (reanalyzeTrack gn gf lo hi evs tr) SuggestionKind.minNote =
        reanalyzeTrack gn gf lo hi evs
          { reanalyzeTrack gn gf lo hi evs tr with transpose := ft, octave := fo } := by
      simp only [applySuggestion, hs1, hs2]
    have hfilt2 : evs.filter (fun e =>
        e.track == ({ reanalyzeTrack gn gf lo hi evs tr with
          transpose := ft, octave := fo } : Track).id && e.type == "note_on") =
        e0 :: rest := by
      have hid : ({ reanalyzeTrack gn gf lo hi evs tr with
          transpose := ft, octave := fo } : Track).id = tr.id := by
        rw [hre]
        rfl
      rw [hid]
      exact h
    have hre2 := reanalyzeTrack_eq_core gn gf lo hi evs
      { reanalyzeTrack gn gf lo hi evs tr with transpose := ft, octave := fo }
      e0 rest hfilt2
    rw [happ, hre2, reanalyzeCore_is_min_over_limit]
    have hm := adjustedMin_eq tr e0 rest
    have hm2 : adjustedMin
        { reanalyzeTrack gn gf lo hi evs tr with transpose := ft, octave := fo }
        e0 rest =
        (rest.map (fun e => e.note)).foldl min e0.note + (ft + fo * 12) :=
      adjustedMin_eq _ e0 rest
    have hlo : adjustedMin
        { reanalyzeTrack gn gf lo hi evs tr with transpose := ft, octave := fo }
        e0 rest = lo := by omega
    rw [hlo, decide_eq_false (lt_irrefl lo), decide_eq_false (not_lt.mpr hwin)]
    rfl

/-- C6 witness: the theorem applied at the concrete scenario (track 0 with
notes 40/44/47, window [48, 83]; `is_min_over_limit` is set there). -/
theorem claim_C6_witness :
    (48 : Int) ≤ 83 ∧
    ([sampleEv40, sampleEv44, sampleEv47].filter
        (fun e => e.track == sampleTrack.id && e.type == "note_on") =
      sampleEv40 :: [sampleEv44, sampleEv47]) ∧
    (((reanalyzeTrack noName noName 48 83
          [sampleEv40, sampleEv44, sampleEv47] sampleTrack).analysis.is_max_over_limit
            = true →
        (applySuggestion noName noName 48 83 [sampleEv40, sampleEv44, sampleEv47]
          (reanalyzeTrack noName noName 48 83
            [sampleEv40, sampleEv44, sampleEv47] sampleTrack)
          SuggestionKind.maxNote).analysis.is_max_over_limit = false) ∧
      ((reanalyzeTrack noName noName 48 83
          [sampleEv40, sampleEv44, sampleEv47] sampleTrack).analysis.is_min_over_limit
            = true →
        (applySuggestion noName noName 48 83 [sampleEv40, sampleEv44, sampleEv47]
          (reanalyzeTrack noName noName 48 83
            [sampleEv40, sampleEv44, sampleEv47] sampleTrack)
          SuggestionKind.minNote).analysis.is_min_over_limit = false)) :=
  ⟨by decide, by decide,
    claim_C6 noName noName 48 83 [sampleEv40, sampleEv44, sampleEv47]
      sampleTrack sampleEv40 [sampleEv44, sampleEv47] (by decide) (by decide)⟩

/-- The `filteredMidiEvents` computed property of RightPanel.vue: the events
whose track id is in the set of selected track ids (set membership modelled
as list membership). -/
def filteredMidiEvents (tracks : List Track) (midiEvents : List NoteEvent) :
    List NoteEvent :=
  let selectedTrackIds := (tracks.filter (fun t => t.selected)).map (fun t => t.id)
  midiEvents.filter (fun event => selectedTrackIds.contains event.track)

/-- The `validEvents` filter of `startPlayback`: start from
`filteredMidiEvents` (track-selection filtering) and keep only `note_on`
events whose note lies in the current window. -/
def startPlaybackValidEvents (tracks : List Track) (midiEvents : List NoteEvent)
    (currentMinNote currentMaxNote : Int) : List NoteEvent :=
  (filteredMidiEvents tracks midiEvents).filter (fun event =>
    event.type == "note_on" &&
      (decide (event.note ≥ currentMinNote) &&
        decide (event.note ≤ currentMaxNote)))

/-- The `validEvents` filter of `startPreview`: start from the full
`midiEvents` list (no track-selection filtering) and keep only `note_on`
events whose note lies in the current window. -/
def startPreviewValidEvents (midiEvents : List NoteEvent)
    (currentMinNote currentMaxNote : Int) : List NoteEvent :=
  midiEvents.filter (fun event =>
    event.type == "note_on" &&
      (decide (event.note ≥ currentMinNote) &&
        decide (event.note ≤ currentMaxNote)))

/-- A note_on event (track 0) with note 60, as in the spec's filtering
scenario. -/
def sampleEv60 : NoteEvent := ⟨0, "note_on", 60, 0, 1, 1, 64⟩

/-- A note_on event (track 0) with note 90, as in the spec's filtering
scenario. -/
def sampleEv90 : NoteEvent := ⟨0, "note_on", 90, 0, 1, 1, 64⟩

/-- C4: the events eligible for simulated-key playback dispatch are exactly
the note_on events of selected tracks whose note lies in `[lo, hi]`;
out-of-window notes are dropped silently (the start request errors only when
the eligible set is empty).  In particular, for notes 40/60/90 on a selected
track and window [48, 83] the eligible set is exactly the note-60 event, and
it is non-empty, so no error is raised. -/
theorem claim_C4 :
    (∀ (tracks : List Track) (midiEvents : List NoteEvent) (lo hi : Int)
        (e : NoteEvent),
      e ∈ startPlaybackValidEvents tracks midiEvents lo hi ↔
        (e ∈ midiEvents ∧ e.type = "note_on" ∧
          (∃ t ∈ tracks, t.selected = true ∧ t.id = e.track) ∧
          lo ≤ e.note ∧ e.note ≤ hi)) ∧
    startPlaybackValidEvents [sampleTrack] [sampleEv40, sampleEv60, sampleEv90]
      48 83 = [sampleEv60] ∧
    startPlaybackValidEvents [sampleTrack] [sampleEv40, sampleEv60, sampleEv90]
      48 83 ≠ [] := by
  refine ⟨?_, by decide, by decide⟩
  intro tracks midiEvents lo hi e
  simp only [startPlaybackValidEvents, filteredMidiEvents, List.mem_filter,
    List.contains_eq_any_beq, List.any_eq_true, List.mem_map, List.mem_filter,
    Bool.and_eq_true, beq_iff_eq, decide_eq_true_eq, ge_iff_le]
  constructor
  · rintro ⟨⟨hmem, id, ⟨⟨t, ⟨ht, hsel⟩, rfl⟩, hbeq⟩⟩, htype, hlo, hhi⟩
    exact ⟨hmem, htype, ⟨t, ht, hsel, hbeq.symm⟩, hlo, hhi⟩
  · rintro ⟨hmem, htype, ⟨t, ht, hsel, hid⟩, hlo, hhi⟩
    exact ⟨⟨hmem, t.id, ⟨⟨t, ⟨ht, hsel⟩, rfl⟩, hid.symm⟩⟩, htype, hlo, hhi⟩

/-- C4 witness: the filtering theorem applied at the concrete scenario. -/
theorem claim_C4_witness :
    startPlaybackValidEvents [sampleTrack] [sampleEv40, sampleEv60, sampleEv90]
      48 83 = [sampleEv60] := claim_C4.2.1

/-- C5: the preview eligible set applies window filtering but no
track-selection filtering (an event is kept iff it is note_on and in-window,
whatever the tracks' selection flags), whereas playback filtering is exactly
the preview filter composed with the selected-track filter. -/
theorem claim_C5 :
    (∀ (midiEvents : List NoteEvent) (lo hi : Int) (e : NoteEvent),
      e ∈ startPreviewValidEvents midiEvents lo hi ↔
        (e ∈ midiEvents ∧ e.type = "note_on" ∧ lo ≤ e.note ∧ e.note ≤ hi)) ∧
    (∀ (tracks : List Track) (midiEvents : List NoteEvent) (lo hi : Int),
      startPlaybackValidEvents tracks midiEvents lo hi =
        startPreviewValidEvents (filteredMidiEvents tracks midiEvents) lo hi) := by
  constructor
  · intro midiEvents lo hi e
    simp [startPreviewValidEvents, List.mem_filter, and_assoc]
  · intro tracks midiEvents lo hi
    rfl

/-- C5 witness: the theorem applied at a concrete input. -/
theorem claim_C5_witness :
    startPlaybackValidEvents [sampleTrack] [sampleEv40, sampleEv60, sampleEv90]
      48 83 =
      startPreviewValidEvents
        (filteredMidiEvents [sampleTrack] [sampleEv40, sampleEv60, sampleEv90])
        48 83 :=
  claim_C5.2 [sampleTrack] [sampleEv40, sampleEv60, sampleEv90] 48 83

/-- The scheduling guard of `startMidiPlayback`:
`event.type === 'note_on' && event.note && event.velocity > 0`
(JS truthiness of `event.note` is `note ≠ 0`). -/
def midiSchedulable (event : NoteEvent) : Bool :=
  event.type == "note_on" && !(event.note == 0) && decide (event.velocity > 0)

/-- The scheduling loop of `startMidiPlayback`: for each eligible event a
synthesizer trigger is attempted inside a per-note try/catch; a throwing
trigger (oracle `fails`) is logged and skipped without aborting the loop, a
successful one increments `scheduledCount`.  Returns the final
`scheduledCount` together with the list of scheduled events in order. -/
def startMidiPlaybackSchedule (fails : NoteEvent → Bool)
    (midiEvents : List NoteEvent) : Nat × List NoteEvent :=
  midiEvents.foldl
    (fun acc event =>
      if midiSchedulable event then
        if fails event then acc
        else (acc.1 + 1, acc.2 ++ [event])
      else acc)
    (0, [])

theorem midiSchedulable_iff (e : NoteEvent) :
    midiSchedulable e = true ↔
      (e.type = "note_on" ∧ e.note ≠ 0 ∧ e.velocity > 0) := by
  simp [midiSchedulable, and_assoc]

theorem startMidiPlaybackSchedule_go (fails : NoteEvent → Bool) :
    ∀ (evs : List NoteEvent) (n : Nat) (acc : List NoteEvent),
      evs.foldl
        (fun acc event =>
          if midiSchedulable event then
            if fails event then acc
            else (acc.1 + 1, acc.2 ++ [event])
          else acc)
        (n, acc) =
      (n + (evs.filter (fun e => midiSchedulable e && !(fails e))).length,
        acc ++ evs.filter (fun e => midiSchedulable e && !(fails e))) := by
  intro evs
  induction evs with
  | nil => intro n acc; simp
  | cons e es ih =>
    intro n acc
    rw [List.foldl_cons, List.filter_cons]
    cases h1 : midiSchedulable e with
    | false => simp [h1, ih]
    | true =>
      cases h2 : fails e with
      | true => simp [h1, h2, ih]
      | false =>
        simp only [h1, h2, Bool.not_false, Bool.and_self, if_true, if_false,
          Bool.false_eq_true, ite_true, ite_false]
        rw [ih]
        simp only [Prod.mk.injEq]
        constructor
        · simp only [List.length_cons]
          omega
        · simp

theorem startMidiPlaybackSchedule_eq (fails : NoteEvent → Bool)
    (midiEvents : List NoteEvent) :
    startMidiPlaybackSchedule fails midiEvents =
      ((midiEvents.filter (fun e => midiSchedulable e && !(fails e))).length,
        midiEvents.filter (fun e => midiSchedulable e && !(fails e))) := by
  unfold startMidiPlaybackSchedule
  rw [startMidiPlaybackSchedule_go]
  simp

/-- C10: in `startMidiPlayback`, an event is scheduled iff its type is
`note_on`, its note is truthy (non-zero) and its velocity is strictly
positive (and its individual trigger does not throw); velocity-0 and note-0
events are never scheduled; and a per-note exception is caught without
aborting the scheduling of the remaining notes (a throwing note leaves the
schedule of the other notes unchanged). -/
theorem claim_C10 (fails : NoteEvent → Bool) (midiEvents : List NoteEvent) :
    ((startMidiPlaybackSchedule fails midiEvents).2 =
      midiEvents.filter (fun e => midiSchedulable e && !(fails e))) ∧
    (∀ e, midiSchedulable e = true ↔
      (e.type = "note_on" ∧ e.note ≠ 0 ∧ e.velocity > 0)) ∧
    (∀ e ∈ (startMidiPlaybackSchedule fails midiEvents).2,
      e.type = "note_on" ∧ e.note ≠ 0 ∧ e.velocity > 0 ∧ fails e = false) ∧
    (∀ e ∈ midiEvents,
      (e.velocity = 0 ∨ e.note = 0 ∨ e.type ≠ "note_on") →
        e ∉ (startMidiPlaybackSchedule fails midiEvents).2) ∧
    (∀ (pre post : List NoteEvent) (bad : NoteEvent), fails bad = true →
      startMidiPlaybackSchedule fails (pre ++ bad :: post) =
        startMidiPlaybackSchedule fails (pre ++ post)) := by
  have hfe := startMidiPlaybackSchedule_eq fails midiEvents
  refine ⟨by rw [hfe], midiSchedulable_iff, ?_, ?_, ?_⟩
  · intro e he
    rw [hfe] at he
    simp only [List.mem_filter, Bool.and_eq_true, Bool.not_eq_true'] at he
    obtain ⟨-, hsched, hfail⟩ := he
    obtain ⟨h1, h2, h3⟩ := (midiSchedulable_iff e).mp hsched
    exact ⟨h1, h2, h3, hfail⟩
  · intro e _ hbad he
    rw [hfe] at he
    simp only [List.mem_filter, Bool.and_eq_true, Bool.not_eq_true'] at he
    obtain ⟨-, hsched, -⟩ := he
    obtain ⟨h1, h2, h3⟩ := (midiSchedulable_iff e).mp hsched
    rcases hbad with hv | hn | ht
    · omega
    · exact h2 hn
    · exact ht h1
  · intro pre post bad hbad
    rw [startMidiPlaybackSchedule_eq, startMidiPlaybackSchedule_eq]
    have hdrop : (pre ++ bad :: post).filter
        (fun e => midiSchedulable e && !(fails e)) =
        (pre ++ post).filter (fun e => midiSchedulable e && !(fails e)) := by
      rw [List.filter_append, List.filter_append, List.filter_cons]
      simp [hbad]
    rw [hdrop]

/-- A note_on event with velocity 0 (never scheduled). -/
def sampleEvVel0 : NoteEvent := ⟨0, "note_on", 60, 0, 1, 1, 0⟩

/-- A note_on event with note 0 (falsy note value, never scheduled). -/
def sampleEvNote0 : NoteEvent := ⟨0, "note_on", 0, 0, 1, 1, 64⟩

/-- C10 witness: the theorem applied at a concrete input (only the
well-formed note-60 event is scheduled). -/
theorem claim_C10_witness :
    (startMidiPlaybackSchedule (fun _ => false)
      [sampleEv60, sampleEvVel0, sampleEvNote0]).2 = [sampleEv60] :=
  (claim_C10 (fun _ => false) [sampleEv60, sampleEvVel0, sampleEvNote0]).1.trans
    (by decide)

/-- The playback phases of the controller in RightPanel.vue: idle, the
3-second pre-roll countdown inside `startPlayback` (awaiting the countdown
promise), and playing (after the backend `start_playback` call). -/
inductive Phase
  | idle
  | countingDown
  | playing
deriving DecidableEq

/-- The two sources of progress in the single-threaded event loop: a
1-second timer tick, and a user stop request (`stopPlayback`). -/
inductive PlayerAction
  | tick
  | stop
deriving DecidableEq

/-- The controller state of RightPanel.vue relevant to start/stop:
`countdownSeconds`, the playback remaining-time ticker, the `isPlaying`
flag, the ordered list of backend commands invoked so far, and whether the
catch-block of `startPlayback` reported a playback failure (it does not for
the 'Countdown cancelled' sentinel, which is logged as benign info). -/
structure CState where
  phase : Phase
  countdownSeconds : Int
  playbackRemainingTime : Int
  isPlaying : Bool
  backendCalls : List String
  failReported : Bool
deriving DecidableEq

/-- The function `stopPlayback` of RightPanel.vue: cancel a pending countdown (the cancel
function clears the interval, zeroes `countdownSeconds` and rejects the
in-flight wait; the catch in `startPlayback` recognises the
'Countdown cancelled' message and treats it as benign, not reporting a
failure), invoke the backend `stop_playback` only if `isPlaying` is set
(it never is during the countdown), clear the ticker, reset the flags and
return to idle. -/
def stopPlaybackStep (s : CState) : CState :=
  { phase := Phase.idle
    countdownSeconds := 0
    playbackRemainingTime := 0
    isPlaying := false
    backendCalls :=
      if s.isPlaying then s.backendCalls ++ ["stop_playback"] else s.backendCalls
    failReported := s.failReported }

/-- One cooperative step of the event loop.  A tick during the countdown
decrements `countdownSeconds`; on reaching 0 the countdown promise resolves
and its continuation runs synchronously (as a microtask, before any further
user event): the backend `start_playback` command is invoked and the
controller transitions to playing — so cancellation can only be observed
strictly before the third tick.  A tick while playing decrements the
remaining time and triggers the stop path at 0.  A stop request runs
`stopPlaybackStep`; during the countdown it first fires the cancel function
(zeroing `countdownSeconds` and rejecting the wait, whose rejection the
caller treats as benign). -/
def step (s : CState) : PlayerAction → CState
  | PlayerAction.stop =>
    match s.phase with
    | Phase.countingDown => stopPlaybackStep { s with countdownSeconds := 0 }
    | _ => stopPlaybackStep s
  | PlayerAction.tick =>
    match s.phase with
    | Phase.countingDown =>
      if s.countdownSeconds - 1 ≤ 0 then
        { s with
          phase := Phase.playing
          countdownSeconds := 0
          isPlaying := true
          backendCalls := s.backendCalls ++ ["start_playback"] }
      else { s with countdownSeconds := s.countdownSeconds - 1 }
    | Phase.playing =>
      if s.playbackRemainingTime - 1 ≤ 0 then
        stopPlaybackStep { s with playbackRemainingTime := s.playbackRemainingTime - 1 }
      else { s with playbackRemainingTime := s.playbackRemainingTime - 1 }
    | Phase.idle => s

/-- The state right after a start request passes its preconditions:
`countdownSeconds = 3`, remaining time precomputed, `isPlaying = false`, no
backend command invoked yet for this request. -/
def startCountdownState (remaining : Int) : CState :=
  { phase := Phase.countingDown
    countdownSeconds := 3
    playbackRemainingTime := remaining
    isPlaying := false
    backendCalls := []
    failReported := false }

/-- Run a sequence of event-loop actions from the start of a playback
request. -/
def playbackRun (acts : List PlayerAction) (remaining : Int) : CState :=
  acts.foldl step (startCountdownState remaining)

/-- The idle state reached after a cancelled countdown. -/
def cancelledIdleState : CState :=
  { phase := Phase.idle
    countdownSeconds := 0
    playbackRemainingTime := 0
    isPlaying := false
    backendCalls := []
    failReported := false }

theorem step_cancelledIdleState (a : PlayerAction) :
    step cancelledIdleState a = cancelledIdleState := by
  cases a <;> rfl

theorem foldl_step_cancelledIdleState :
    ∀ l : List PlayerAction, l.foldl step cancelledIdleState = cancelledIdleState
  | [] => rfl
  | a :: l => by
    rw [List.foldl_cons, step_cancelledIdleState]
    exact foldl_step_cancelledIdleState l

theorem run_ticks_lt_three (remaining : Int) (n : Nat) (h : n < 3) :
    (List.replicate n PlayerAction.tick).foldl step (startCountdownState remaining) =
      { phase := Phase.countingDown
        countdownSeconds := 3 - (n : Int)
        playbackRemainingTime := remaining
        isPlaying := false
        backendCalls := []
        failReported := false } := by
  interval_cases n
  · rfl
  · show step (startCountdownState remaining) PlayerAction.tick = _
    norm_num [startCountdownState, step]
  · show step (step (startCountdownState remaining) PlayerAction.tick)
      PlayerAction.tick = _
    norm_num [startCountdownState, step]

/-- C3: if a stop request is issued while the 3-second pre-roll countdown is
still pending (strictly before the third tick), the backend `start_playback`
command is never invoked for that request — whatever happens afterwards —
the in-flight wait's rejection is benign (no failure reported), and the
controller returns to (and stays in) the idle state with the countdown
cleared. -/
theorem claim_C3 (remaining : Int) (n : Nat) (post : List PlayerAction)
    (h : n < 3) :
    (playbackRun (List.replicate n PlayerAction.tick ++
        PlayerAction.stop :: post) remaining).backendCalls = [] ∧
    "start_playback" ∉ (playbackRun (List.replicate n PlayerAction.tick ++
        PlayerAction.stop :: post) remaining).backendCalls ∧
    (playbackRun (List.replicate n PlayerAction.tick ++
        PlayerAction.stop :: post) remaining).phase = Phase.idle ∧
    (playbackRun (List.replicate n PlayerAction.tick ++
        PlayerAction.stop :: post) remaining).isPlaying = false ∧
    (playbackRun (List.replicate n PlayerAction.tick ++
        PlayerAction.stop :: post) remaining).countdownSeconds = 0 ∧
    (playbackRun (List.replicate n PlayerAction.tick ++
        PlayerAction.stop :: post) remaining).failReported = false := by
  have hrun : playbackRun (List.replicate n PlayerAction.tick ++
      PlayerAction.stop :: post) remaining = cancelledIdleState := by
    unfold playbackRun
    rw [List.foldl_append, run_ticks_lt_three remaining n h, List.foldl_cons]
    have hstop : step
        { phase := Phase.countingDown
          countdownSeconds := 3 - (n : Int)
          playbackRemainingTime := remaining
          isPlaying := false
          backendCalls := []
          failReported := false } PlayerAction.stop = cancelledIdleState := rfl
    rw [hstop]
    exact foldl_step_cancelledIdleState post
  rw [hrun]
  refine ⟨rfl, ?_, rfl, rfl, rfl, rfl⟩
  simp [cancelledIdleState]

/-- C3 witness: the theorem applied with one elapsed tick before the stop,
followed by further arbitrary activity. -/
theorem claim_C3_witness :
    (1 : Nat) < 3 ∧
    ((playbackRun (List.replicate 1 PlayerAction.tick ++
        PlayerAction.stop :: [PlayerAction.tick, PlayerAction.stop])
        10).backendCalls = [] ∧
      "start_playback" ∉ (playbackRun (List.replicate 1 PlayerAction.tick ++
        PlayerAction.stop :: [PlayerAction.tick, PlayerAction.stop])
        10).backendCalls ∧
      (playbackRun (List.replicate 1 PlayerAction.tick ++
        PlayerAction.stop :: [PlayerAction.tick, PlayerAction.stop])
        10).phase = Phase.idle ∧
      (playbackRun (List.replicate 1 PlayerAction.tick ++
        PlayerAction.stop :: [PlayerAction.tick, PlayerAction.stop])
        10).isPlaying = false ∧
      (playbackRun (List.replicate 1 PlayerAction.tick ++
        PlayerAction.stop :: [PlayerAction.tick, PlayerAction.stop])
        10).countdownSeconds = 0 ∧
      (playbackRun (List.replicate 1 PlayerAction.tick ++
        PlayerAction.stop :: [PlayerAction.tick, PlayerAction.stop])
        10).failReported = false) :=
  ⟨by decide, claim_C3 10 1 [PlayerAction.tick, PlayerAction.stop] (by decide)⟩

end AutoPlay
